import Mathlib

/-
Shallow embedding of the core of the `bina` binary-reconciliation tool
(src/main.rs) and proofs about it.

Modelling conventions:
* The manifest map `HashMap<String, [String; 3]>` built by `get_data` is
  modelled as an association list `List (String × BinData)`, one pair per
  key, in one (arbitrary) iteration order; `BinData` names the three array
  slots `repo`, `exe`, `version_arg`.
* Ambient effects are gathered in an `Env` record of oracles:
  `binDirOk` is the result of `ensure_bin_directory`, `installed` the
  file-name listing of `XDG_BIN_HOME`, `run` the outcome of
  `Command::new(name).arg(arg).output()` (`none` models the `Err` case,
  on which the source panics via `expect`), `remote` the network response
  consumed by `check_latest_release`, and `install` the result of the
  `ubi` build-and-install step in `binary_get`.
* A Rust panic is modelled by an overall `none` result; the per-row
  `HashMap<String, String>` is modelled by the `Row` structure whose
  `latest` field is `none` exactly when the source inserts no Latest key.
* `\d` in the version regex is modelled as `Char.isDigit`; the inputs the
  program feeds it are UTF-8 text from subprocess stdout and release tags.
-/

namespace Bina

/-- One value of the manifest map: the `[repo, exe, version_arg]` array
stored per binary name by `get_data`. -/
structure BinData where
  repo : String
  exe : String
  version_arg : String
deriving DecidableEq, Repr

/-- Result of `Command::new(..).output()` when the child could be spawned:
its exit status and captured stdout (the source reads only `stdout`). -/
structure ProcOutput where
  success : Bool
  stdout : String
deriving DecidableEq, Repr

/-- Outcome of the HTTP exchange inside `check_latest_release`:
send error, non-success status, JSON parse error, or a parsed payload
whose `tag_name` field may be missing (`none`). -/
inductive RemoteResp where
  | sendErr : RemoteResp
  | httpFail : RemoteResp
  | jsonErr : RemoteResp
  | payload : Option String → RemoteResp
deriving DecidableEq, Repr

/-- The ambient state and external-world oracles one invocation observes. -/
structure Env where
  binDirOk : Bool
  installed : List String
  run : String → String → Option ProcOutput
  remote : String → RemoteResp
  install : String → BinData → Except String Unit

/-- One row of the report: the `Binary`, `Status`, `Version` and optional
`Latest` keys the source inserts into each result `HashMap`. -/
structure Row where
  binary : String
  status : String
  version : String
  latest : Option String
deriving DecidableEq, Repr

/-! ### Version extraction: the regex `(\d+\.\d+\.\d+)` -/

/-- Greedy match of `\d+\.\d+\.\d+` anchored at the head of `cs`;
returns the matched prefix. Because a shortened digit run would leave a
digit where a literal dot is required, the greedy (maximal-munch) match
is the only one the backtracking regex engine can produce here. -/
def matchVerAt (cs : List Char) : Option (List Char) :=
  if (cs.takeWhile Char.isDigit).isEmpty then none
  else
    match cs.dropWhile Char.isDigit with
    | [] => none
    | c1 :: r2 =>
      if c1 = '.' then
        if (r2.takeWhile Char.isDigit).isEmpty then none
        else
          match r2.dropWhile Char.isDigit with
          | [] => none
          | c2 :: r4 =>
            if c2 = '.' then
              if (r4.takeWhile Char.isDigit).isEmpty then none
              else
                some (cs.takeWhile Char.isDigit ++
                  '.' :: (r2.takeWhile Char.isDigit ++
                    '.' :: r4.takeWhile Char.isDigit))
            else none
      else none

/-- Leftmost match: try each start position from the left, as
`Regex::captures` does. -/
def findVer : List Char → Option (List Char)
  | [] => none
  | c :: cs =>
    match matchVerAt (c :: cs) with
    | some m => some m
    | none => findVer cs

/-- `re.captures(text).and_then(|cap| cap.get(1) ...)`: the first
`\d+\.\d+\.\d+` substring of `text`, if any. -/
def extract (s : String) : Option String :=
  (findVer s.data).map String.mk

/-! ### Declarative counterparts used to state the extraction claims -/

/-- Every character of the list is a decimal digit. -/
def AllDigits (l : List Char) : Prop := ∀ c ∈ l, c.isDigit = true

/-- `s` is a complete `\d+\.\d+\.\d+` token: three nonempty digit runs
separated by literal dots. -/
def VerPat (s : List Char) : Prop :=
  ∃ d1 d2 d3 : List Char,
    s = d1 ++ '.' :: (d2 ++ '.' :: d3) ∧
    d1 ≠ [] ∧ d2 ≠ [] ∧ d3 ≠ [] ∧
    AllDigits d1 ∧ AllDigits d2 ∧ AllDigits d3

/-- `m` occurs in `t` starting at character index `i`. -/
def OccursAt (t m : List Char) (i : Nat) : Prop :=
  ∃ pre post, t = pre ++ m ++ post ∧ pre.length = i

/-- Some `\d+\.\d+\.\d+` token occurs in `t` at index `i`. -/
def MatchAt (t : List Char) (i : Nat) : Prop :=
  ∃ m, VerPat m ∧ OccursAt t m i

/-! ### Remote probe -/

/-- `check_latest_release`: every failure shape collapses to the string
`"Error"`; a payload with a string `tag_name` yields that tag. -/
def check_latest_release : RemoteResp → String
  | RemoteResp.payload (some t) => t
  | RemoteResp.payload none => "Error"
  | RemoteResp.sendErr => "Error"
  | RemoteResp.httpFail => "Error"
  | RemoteResp.jsonErr => "Error"

/-! ### binary_check -/

/-- The `Latest` column of one row: present only under `--latest`, and
then the extracted latest tag with the `"-"` fallback, exactly as both
branches of the source loop compute it. -/
def latestField (env : Env) (check_latest : Bool) (bd : BinData) :
    Option String :=
  if check_latest then
    some ((extract (check_latest_release (env.remote bd.repo))).getD "-")
  else none

/-- The body of the `for (bin_name, bin_data) in data` loop in
`binary_check`: builds the row for one entry, together with the list of
subprocess invocations (name, argument) it performed. `none` models the
panic of `.output().expect(..)` when the child cannot be spawned. -/
def checkRow (env : Env) (check_latest : Bool) (bin_name : String)
    (bd : BinData) : Option (Row × List (String × String)) :=
  if env.installed.contains bin_name then
    match env.run bin_name bd.version_arg with
    | none => none
    | some out =>
      some ({ binary := bin_name, status := "Found",
              version := (extract out.stdout).getD "-",
              latest := latestField env check_latest bd },
            [(bin_name, bd.version_arg)])
  else
    some ({ binary := bin_name, status := "Not Found", version := "-",
            latest := latestField env check_latest bd }, [])

/-- The loop of `binary_check`, accumulating rows in iteration order and
recording every subprocess invocation; a panic anywhere yields `none`. -/
def binary_check_go (env : Env) (check_latest : Bool) :
    List (String × BinData) → Option (List Row × List (String × String))
  | [] => some ([], [])
  | (n, bd) :: rest =>
    match checkRow env check_latest n bd with
    | none => none
    | some (r, inv) =>
      match binary_check_go env check_latest rest with
      | none => none
      | some (rows, invs) => some (r :: rows, inv ++ invs)

/-- `binary_check`: returns the empty report when `ensure_bin_directory`
fails, otherwise one row per manifest entry (or `none` on panic). -/
def binary_check (env : Env) (data : List (String × BinData))
    (check_latest : Bool) : Option (List Row × List (String × String)) :=
  if env.binDirOk then binary_check_go env check_latest data
  else some ([], [])

/-! ### binary_get and binary_get_missing -/

/-- `data.get(bin_name)` on the association-list model of the map. -/
def lookupName (data : List (String × BinData)) (n : String) :
    Option BinData :=
  (data.find? (fun p => p.1 == n)).map Prod.snd

/-- `binary_get`: re-checks the directory, looks the name up, and runs
the `ubi` install step. The second component records the names for which
the installer was actually invoked. -/
def binary_get (env : Env) (data : List (String × BinData))
    (bin_name : String) : Except String Unit × List String :=
  if env.binDirOk then
    match lookupName data bin_name with
    | none => (Except.error "Binary not found in data", [])
    | some bd =>
      match env.install bin_name bd with
      | Except.ok _ => (Except.ok (), [bin_name])
      | Except.error e => (Except.error e, [bin_name])
  else (Except.error "Failed to ensure bin directory", [])

/-- The `not_found` vector of `binary_get_missing`: manifest keys whose
name is not among the installed file names. -/
def notFound (env : Env) (data : List (String × BinData)) : List String :=
  (data.map Prod.fst).filter (fun n => !env.installed.contains n)

/-- The download loop of `binary_get_missing`: sequential, propagating
the first installer error via `?` and stopping there. -/
def bgm_go (env : Env) (data : List (String × BinData)) :
    List String → Except String String × List String
  | [] => (Except.ok "", [])
  | n :: rest =>
    match binary_get env data n with
    | (Except.ok _, inv) =>
      let r := bgm_go env data rest
      (r.1, inv ++ r.2)
    | (Except.error e, inv) => (Except.error e, inv)

/-- `binary_get_missing`: no-op summary when nothing is missing,
otherwise the sequential download loop. -/
def binary_get_missing (env : Env) (data : List (String × BinData)) :
    Except String String × List String :=
  if env.binDirOk then
    let nf := notFound env data
    if nf.isEmpty then
      (Except.ok "All binaries are already present.", [])
    else bgm_go env data nf
  else (Except.ok "", [])

/-! ### Process exit codes of `main` per subcommand -/

/-- Exit code of `bina check [--latest]`: `main` always returns `Ok` on
this path, so the process exits 0 unless `binary_check` panicked
(a Rust panic in `main` exits with code 101). -/
def check_command_exit (env : Env) (data : List (String × BinData))
    (latest : Bool) : Nat :=
  match binary_check env data latest with
  | some _ => 0
  | none => 101

/-- Exit code of `bina get-missing`: an `Err` from `binary_get_missing`
propagates out of `main`, which exits 1; otherwise 0. -/
def get_missing_command_exit (env : Env)
    (data : List (String × BinData)) : Nat :=
  match (binary_get_missing env data).1 with
  | Except.ok _ => 0
  | Except.error _ => 1

/-- Exit code of `bina get NAME`: an `Err` from `binary_get` propagates
out of `main`, which exits 1; otherwise 0. -/
def get_command_exit (env : Env) (data : List (String × BinData))
    (bin_name : String) : Nat :=
  match (binary_get env data bin_name).1 with
  | Except.ok _ => 0
  | Except.error _ => 1

/-! ### Lemmas about takeWhile and dropWhile over digit runs -/

theorem takeWhile_all (p : Char → Bool) : ∀ (d : List Char),
    (∀ c ∈ d, p c = true) → d.takeWhile p = d ∧ d.dropWhile p = [] := by
  intro d
  induction d with
  | nil => intro _; exact ⟨rfl, rfl⟩
  | cons c d ih =>
    intro h
    have hc : p c = true := h c (List.mem_cons_self c d)
    have ih2 := ih (fun x hx => h x (List.mem_cons_of_mem c hx))
    simp [List.takeWhile_cons, List.dropWhile_cons, hc, ih2.1, ih2.2]

theorem takeWhile_middle (p : Char → Bool) (c : Char) (l2 : List Char)
    (hc : p c = false) : ∀ (l1 : List Char), (∀ x ∈ l1, p x = true) →
    (l1 ++ c :: l2).takeWhile p = l1 ∧ (l1 ++ c :: l2).dropWhile p = c :: l2 := by
  intro l1
  induction l1 with
  | nil => intro _; simp [List.takeWhile_cons, List.dropWhile_cons, hc]
  | cons a l1 ih =>
    intro h
    have ha : p a = true := h a (List.mem_cons_self a l1)
    have ih2 := ih (fun x hx => h x (List.mem_cons_of_mem a hx))
    simp [List.takeWhile_cons, List.dropWhile_cons, ha, ih2.1, ih2.2]

theorem allDigits_takeWhile (cs : List Char) :
    AllDigits (cs.takeWhile Char.isDigit) :=
  fun _ hc => List.mem_takeWhile_imp hc

theorem dot_not_digit : ('.').isDigit = false := by decide

/-! ### Soundness and completeness of the anchored matcher -/

theorem matchVerAt_sound {cs m : List Char} (h : matchVerAt cs = some m) :
    VerPat m ∧ ∃ post, cs = m ++ post := by
  unfold matchVerAt at h
  split at h
  · cases h
  · rename_i h1
    split at h
    · cases h
    · rename_i c1 r2 h2
      split at h
      · rename_i hc1
        split at h
        · cases h
        · rename_i h3
          split at h
          · cases h
          · rename_i c2 r4 h4
            split at h
            · rename_i hc2
              split at h
              · cases h
              · rename_i h5
                cases h
                subst hc1
                subst hc2
                refine ⟨⟨cs.takeWhile Char.isDigit, r2.takeWhile Char.isDigit,
                  r4.takeWhile Char.isDigit, rfl, ?_, ?_, ?_,
                  allDigits_takeWhile cs, allDigits_takeWhile r2,
                  allDigits_takeWhile r4⟩, r4.dropWhile Char.isDigit, ?_⟩
                · simpa [List.isEmpty_iff] using h1
                · simpa [List.isEmpty_iff] using h3
                · simpa [List.isEmpty_iff] using h5
                · conv_lhs => rw [← List.takeWhile_append_dropWhile Char.isDigit cs,
                    h2, ← List.takeWhile_append_dropWhile Char.isDigit r2,
                    h4, ← List.takeWhile_append_dropWhile Char.isDigit r4]
                  simp
            · cases h
      · cases h

theorem matchVerAt_complete {m : List Char} (post : List Char)
    (hm : VerPat m) : (matchVerAt (m ++ post)).isSome = true := by
  obtain ⟨d1, d2, d3, rfl, h1, h2, h3, a1, a2, a3⟩ := hm
  cases d3 with
  | nil => exact absurd rfl h3
  | cons c d3t =>
    have hcd : Char.isDigit c = true := a3 c (List.mem_cons_self c d3t)
    have e0 : (d1 ++ '.' :: (d2 ++ '.' :: (c :: d3t))) ++ post =
        d1 ++ '.' :: (d2 ++ '.' :: (c :: (d3t ++ post))) := by simp
    have t1 := takeWhile_middle Char.isDigit '.'
      (d2 ++ '.' :: (c :: (d3t ++ post))) dot_not_digit d1 a1
    have t2 := takeWhile_middle Char.isDigit '.' (c :: (d3t ++ post))
      dot_not_digit d2 a2
    rw [e0]
    simp [matchVerAt, t1.1, t1.2, t2.1, t2.2, List.takeWhile_cons, hcd,
      List.isEmpty_iff, h1, h2]

theorem matchVerAt_verPat {m : List Char} (hm : VerPat m) :
    matchVerAt m = some m := by
  obtain ⟨d1, d2, d3, rfl, h1, h2, h3, a1, a2, a3⟩ := hm
  have t1 := takeWhile_middle Char.isDigit '.' (d2 ++ '.' :: d3)
    dot_not_digit d1 a1
  have t2 := takeWhile_middle Char.isDigit '.' d3 dot_not_digit d2 a2
  have t3 := takeWhile_all Char.isDigit d3 a3
  simp [matchVerAt, t1.1, t1.2, t2.1, t2.2, t3.1, t3.2,
    List.isEmpty_iff, h1, h2, h3]

/-! ### The leftmost-match scan -/

theorem verPat_ne_nil {m : List Char} (hm : VerPat m) : m ≠ [] := by
  obtain ⟨d1, d2, d3, rfl, h1, _, _, _, _, _⟩ := hm
  cases d1 with
  | nil => exact absurd rfl h1
  | cons c d1t => simp

theorem findVer_sound : ∀ {t m : List Char}, findVer t = some m →
    VerPat m ∧ ∃ i, OccursAt t m i ∧ ∀ j, j < i → ¬ MatchAt t j := by
  intro t
  induction t with
  | nil => intro m h; cases h
  | cons c cs ih =>
    intro m h
    unfold findVer at h
    cases hm : matchVerAt (c :: cs) with
    | some m0 =>
      rw [hm] at h
      cases h
      obtain ⟨hv, post, hpost⟩ := matchVerAt_sound hm
      refine ⟨hv, 0, ⟨[], post, by simpa using hpost, rfl⟩, ?_⟩
      intro j hj
      exact absurd hj (Nat.not_lt_zero j)
    | none =>
      rw [hm] at h
      obtain ⟨hv, i, ⟨pre, post, hsplit, hlen⟩, hleft⟩ := ih h
      refine ⟨hv, i + 1, ⟨c :: pre, post, by simp [hsplit], by simp [hlen]⟩, ?_⟩
      intro j hj hmatch
      obtain ⟨m9, hm9, pre9, post9, hsp9, hpl9⟩ := hmatch
      cases j with
      | zero =>
        have hpre9 : pre9 = [] := List.length_eq_zero.mp hpl9
        subst hpre9
        have : (matchVerAt (m9 ++ post9)).isSome = true :=
          matchVerAt_complete post9 hm9
        rw [show m9 ++ post9 = c :: cs from by simpa using hsp9.symm] at this
        rw [hm] at this
        cases this
      | succ k =>
        cases pre9 with
        | nil => simp at hpl9
        | cons a pre9t =>
          have hsp9t : cs = pre9t ++ m9 ++ post9 := by
            have := hsp9
            simp only [List.cons_append, List.append_assoc] at this ⊢
            exact (List.cons.injEq a _ c cs).mp this.symm |>.2.symm
          exact hleft k (Nat.lt_of_succ_lt_succ hj)
            ⟨m9, hm9, pre9t, post9, hsp9t, by simpa using hpl9⟩

theorem findVer_eq_none_iff {t : List Char} :
    findVer t = none ↔ ∀ i, ¬ MatchAt t i := by
  constructor
  · intro h
    induction t with
    | nil =>
      intro i hmatch
      obtain ⟨m9, hm9, pre9, post9, hsp9, _⟩ := hmatch
      have : m9 = [] := by
        cases m9 with
        | nil => rfl
        | cons a mt =>
          exact absurd (congrArg List.length hsp9) (by simp; omega)
      exact absurd this (verPat_ne_nil hm9)
    | cons c cs ih =>
      unfold findVer at h
      cases hm : matchVerAt (c :: cs) with
      | some m0 => rw [hm] at h; cases h
      | none =>
        rw [hm] at h
        intro i hmatch
        obtain ⟨m9, hm9, pre9, post9, hsp9, hpl9⟩ := hmatch
        cases pre9 with
        | nil =>
          have : (matchVerAt (m9 ++ post9)).isSome = true :=
            matchVerAt_complete post9 hm9
          rw [show m9 ++ post9 = c :: cs from by simpa using hsp9.symm] at this
          rw [hm] at this
          cases this
        | cons a pre9t =>
          have hsp9t : cs = pre9t ++ m9 ++ post9 := by
            have := hsp9
            simp only [List.cons_append, List.append_assoc] at this ⊢
            exact (List.cons.injEq a _ c cs).mp this.symm |>.2.symm
          exact ih h pre9t.length ⟨m9, hm9, pre9t, post9, hsp9t, rfl⟩
  · intro h
    cases hf : findVer t with
    | none => rfl
    | some m =>
      obtain ⟨hv, i, hocc, _⟩ := findVer_sound hf
      exact absurd ⟨m, hv, hocc⟩ (h i)

theorem findVer_verPat {m : List Char} (hm : VerPat m) :
    findVer m = some m := by
  have hne := verPat_ne_nil hm
  cases hd : m with
  | nil => exact absurd hd hne
  | cons c mt =>
    rw [← hd]
    have : matchVerAt m = some m := matchVerAt_verPat hm
    rw [hd] at this ⊢
    unfold findVer
    rw [this]

/-! ### String-level facts about extract -/

theorem extract_eq_none_iff {t : String} :
    extract t = none ↔ ∀ i, ¬ MatchAt t.data i := by
  unfold extract
  rw [Option.map_eq_none']
  exact findVer_eq_none_iff

theorem extract_eq_some {t s : String} (h : extract t = some s) :
    VerPat s.data ∧ ∃ i, OccursAt t.data s.data i ∧
      ∀ j, j < i → ¬ MatchAt t.data j := by
  unfold extract at h
  cases hf : findVer t.data with
  | none => rw [hf] at h; cases h
  | some m =>
    rw [hf] at h
    cases h
    exact findVer_sound hf

theorem extract_verPat {s : String} (h : VerPat s.data) :
    extract s = some s := by
  unfold extract
  rw [findVer_verPat h]
  rfl

/-! ### Case lemmas for checkRow -/

theorem checkRow_absent {env : Env} {n : String} {bd : BinData} (l : Bool)
    (h : env.installed.contains n = false) :
    checkRow env l n bd =
      some ({ binary := n, status := "Not Found", version := "-",
              latest := latestField env l bd }, []) := by
  unfold checkRow
  rw [h]
  simp

theorem checkRow_present {env : Env} {n : String} {bd : BinData} (l : Bool)
    {out : ProcOutput} (h : env.installed.contains n = true)
    (hr : env.run n bd.version_arg = some out) :
    checkRow env l n bd =
      some ({ binary := n, status := "Found",
              version := (extract out.stdout).getD "-",
              latest := latestField env l bd }, [(n, bd.version_arg)]) := by
  unfold checkRow
  rw [h, hr]
  simp

theorem checkRow_panic {env : Env} {n : String} {bd : BinData} (l : Bool)
    (h : env.installed.contains n = true)
    (hr : env.run n bd.version_arg = none) :
    checkRow env l n bd = none := by
  unfold checkRow
  rw [h, hr]
  simp

theorem checkRow_isSome {env : Env} {n : String} {bd : BinData} {l : Bool} :
    (checkRow env l n bd).isSome = true ↔
      (env.installed.contains n = true → (env.run n bd.version_arg).isSome = true) := by
  constructor
  · intro h hin
    cases hr : env.run n bd.version_arg with
    | none => rw [checkRow_panic l hin hr] at h; cases h
    | some out => rfl
  · intro h
    cases hin : env.installed.contains n with
    | false => rw [checkRow_absent l hin]; rfl
    | true =>
      cases hr : env.run n bd.version_arg with
      | none => rw [hr] at h; cases h hin
      | some out => rw [checkRow_present l hin hr]; rfl

/-! ### Structure lemmas for the binary_check loop -/

theorem binary_check_go_names {env : Env} {l : Bool} :
    ∀ {data : List (String × BinData)} {rows : List Row}
      {invs : List (String × String)},
      binary_check_go env l data = some (rows, invs) →
      rows.map Row.binary = data.map Prod.fst := by
  intro data
  induction data with
  | nil =>
    intro rows invs h
    cases h
    rfl
  | cons p rest ih =>
    intro rows invs h
    obtain ⟨n, bd⟩ := p
    unfold binary_check_go at h
    cases hc : checkRow env l n bd with
    | none => rw [hc] at h; cases h
    | some ri =>
      rw [hc] at h
      obtain ⟨r, inv⟩ := ri
      cases hg : binary_check_go env l rest with
      | none => rw [hg] at h; cases h
      | some rsis =>
        rw [hg] at h
        obtain ⟨rows0, invs0⟩ := rsis
        cases h
        have hb : r.binary = n := by
          cases hin : env.installed.contains n with
          | false => rw [checkRow_absent l hin] at hc; cases hc; rfl
          | true =>
            cases hr : env.run n bd.version_arg with
            | none => rw [checkRow_panic l hin hr] at hc; cases hc
            | some out => rw [checkRow_present l hin hr] at hc; cases hc; rfl
        simp [hb, ih hg]

theorem binary_check_go_mem {env : Env} {l : Bool} :
    ∀ {data : List (String × BinData)} {rows : List Row}
      {invs : List (String × String)} {n : String} {bd : BinData},
      binary_check_go env l data = some (rows, invs) →
      (n, bd) ∈ data →
      ∃ r inv, checkRow env l n bd = some (r, inv) ∧ r ∈ rows ∧
        ∀ x ∈ inv, x ∈ invs := by
  intro data
  induction data with
  | nil =>
    intro rows invs n bd _ hmem
    cases hmem
  | cons p rest ih =>
    intro rows invs n bd h hmem
    obtain ⟨n0, bd0⟩ := p
    unfold binary_check_go at h
    cases hc : checkRow env l n0 bd0 with
    | none => rw [hc] at h; cases h
    | some ri =>
      rw [hc] at h
      obtain ⟨r, inv⟩ := ri
      cases hg : binary_check_go env l rest with
      | none => rw [hg] at h; cases h
      | some rsis =>
        rw [hg] at h
        obtain ⟨rows0, invs0⟩ := rsis
        cases h
        rcases List.mem_cons.mp hmem with heq | htail
        · cases heq
          exact ⟨r, inv, hc, List.mem_cons_self r rows0,
            fun x hx => List.mem_append_left invs0 hx⟩
        · obtain ⟨r9, inv9, hc9, hr9, hi9⟩ := ih hg htail
          exact ⟨r9, inv9, hc9, List.mem_cons_of_mem r hr9,
            fun x hx => List.mem_append_right inv (hi9 x hx)⟩

theorem binary_check_go_inv_installed {env : Env} {l : Bool} :
    ∀ {data : List (String × BinData)} {rows : List Row}
      {invs : List (String × String)},
      binary_check_go env l data = some (rows, invs) →
      ∀ p ∈ invs, env.installed.contains p.1 = true := by
  intro data
  induction data with
  | nil =>
    intro rows invs h
    cases h
    intro p hp
    cases hp
  | cons q rest ih =>
    intro rows invs h
    obtain ⟨n0, bd0⟩ := q
    unfold binary_check_go at h
    cases hc : checkRow env l n0 bd0 with
    | none => rw [hc] at h; cases h
    | some ri =>
      rw [hc] at h
      obtain ⟨r, inv⟩ := ri
      cases hg : binary_check_go env l rest with
      | none => rw [hg] at h; cases h
      | some rsis =>
        rw [hg] at h
        obtain ⟨rows0, invs0⟩ := rsis
        cases h
        intro p hp
        rcases List.mem_append.mp hp with hl | hr
        · cases hin : env.installed.contains n0 with
          | false =>
            rw [checkRow_absent l hin] at hc
            cases hc
            cases hl
          | true =>
            cases hrun : env.run n0 bd0.version_arg with
            | none => rw [checkRow_panic l hin hrun] at hc; cases hc
            | some out =>
              rw [checkRow_present l hin hrun] at hc
              cases hc
              rcases List.mem_singleton.mp hl with rfl
              exact hin
        · exact ih hg p hr

theorem binary_check_go_isSome {env : Env} {l : Bool} :
    ∀ {data : List (String × BinData)},
      (binary_check_go env l data).isSome = true ↔
      ∀ p ∈ data, (checkRow env l p.1 p.2).isSome = true := by
  intro data
  induction data with
  | nil => simp [binary_check_go]
  | cons q rest ih =>
    obtain ⟨n0, bd0⟩ := q
    constructor
    · intro h p hp
      unfold binary_check_go at h
      cases hc : checkRow env l n0 bd0 with
      | none => rw [hc] at h; cases h
      | some ri =>
        rw [hc] at h
        obtain ⟨r, inv⟩ := ri
        cases hg : binary_check_go env l rest with
        | none => rw [hg] at h; cases h
        | some rsis =>
          rcases List.mem_cons.mp hp with heq | htail
          · cases heq; rw [hc]; rfl
          · exact (ih.mp (by rw [hg]; rfl)) p htail
    · intro h
      unfold binary_check_go
      cases hc : checkRow env l n0 bd0 with
      | none =>
        have := h (n0, bd0) (List.mem_cons_self _ rest)
        rw [hc] at this
        cases this
      | some ri =>
        obtain ⟨r, inv⟩ := ri
        cases hg : binary_check_go env l rest with
        | none =>
          have := ih.mpr (fun p hp => h p (List.mem_cons_of_mem _ hp))
          rw [hg] at this
          cases this
        | some rsis => rfl

/-! ### Lemmas for binary_get and the get-missing loop -/

theorem lookupName_mem_keys {data : List (String × BinData)} {n : String}
    (h : n ∈ data.map Prod.fst) : ∃ bd, lookupName data n = some bd := by
  obtain ⟨p, hp, rfl⟩ := List.mem_map.mp h
  unfold lookupName
  have hs : (data.find? (fun q => q.1 == p.1)).isSome = true := by
    rw [List.find?_isSome]
    exact ⟨p, hp, by simp⟩
  cases hf : data.find? (fun q => q.1 == p.1) with
  | none => rw [hf] at hs; cases hs
  | some q => exact ⟨q.2, rfl⟩

theorem binary_get_ok {env : Env} {data : List (String × BinData)}
    {n : String} {bd : BinData} (hdir : env.binDirOk = true)
    (hbd : lookupName data n = some bd)
    (hins : env.install n bd = Except.ok ()) :
    binary_get env data n = (Except.ok (), [n]) := by
  unfold binary_get
  rw [hdir, hbd]
  simp [hins]

theorem binary_get_err {env : Env} {data : List (String × BinData)}
    {n : String} {bd : BinData} {e : String} (hdir : env.binDirOk = true)
    (hbd : lookupName data n = some bd)
    (hins : env.install n bd = Except.error e) :
    binary_get env data n = (Except.error e, [n]) := by
  unfold binary_get
  rw [hdir, hbd]
  simp [hins]

theorem bgm_go_all_ok {env : Env} {data : List (String × BinData)}
    (hdir : env.binDirOk = true) :
    ∀ {lst : List String},
      (∀ n ∈ lst, n ∈ data.map Prod.fst) →
      (∀ n ∈ lst, ∀ bd, lookupName data n = some bd →
        env.install n bd = Except.ok ()) →
      bgm_go env data lst = (Except.ok "", lst) := by
  intro lst
  induction lst with
  | nil => intro _ _; rfl
  | cons n rest ih =>
    intro hkeys hok
    obtain ⟨bd, hbd⟩ := lookupName_mem_keys (hkeys n (List.mem_cons_self n rest))
    have hins := hok n (List.mem_cons_self n rest) bd hbd
    have ih2 := ih (fun x hx => hkeys x (List.mem_cons_of_mem n hx))
      (fun x hx => hok x (List.mem_cons_of_mem n hx))
    simp [bgm_go, binary_get_ok hdir hbd hins, ih2]

theorem bgm_go_fail {env : Env} {data : List (String × BinData)}
    {a e : String} {bd : BinData} (hdir : env.binDirOk = true)
    (hbd : lookupName data a = some bd)
    (hfail : env.install a bd = Except.error e) :
    ∀ {l1 : List String} (l2 : List String),
      (∀ n ∈ l1, n ∈ data.map Prod.fst) →
      (∀ n ∈ l1, ∀ bd0, lookupName data n = some bd0 →
        env.install n bd0 = Except.ok ()) →
      bgm_go env data (l1 ++ a :: l2) = (Except.error e, l1 ++ [a]) := by
  intro l1
  induction l1 with
  | nil =>
    intro l2 _ _
    simp [bgm_go, binary_get_err hdir hbd hfail]
  | cons n rest ih =>
    intro l2 hkeys hok
    obtain ⟨bd0, hbd0⟩ :=
      lookupName_mem_keys (hkeys n (List.mem_cons_self n rest))
    have hins := hok n (List.mem_cons_self n rest) bd0 hbd0
    have ih2 := ih l2 (fun x hx => hkeys x (List.mem_cons_of_mem n hx))
      (fun x hx => hok x (List.mem_cons_of_mem n hx))
    simp [bgm_go, binary_get_ok hdir hbd0 hins, ih2]

theorem notFound_mem {env : Env} {data : List (String × BinData)}
    {n : String} :
    n ∈ notFound env data ↔
      n ∈ data.map Prod.fst ∧ env.installed.contains n = false := by
  unfold notFound
  rw [List.mem_filter]
  simp

/-! ### Further helper lemmas shared by the claim theorems -/

theorem checkRow_some_fields {env : Env} {l : Bool} {n : String}
    {bd : BinData} {r : Row} {inv : List (String × String)}
    (h : checkRow env l n bd = some (r, inv)) :
    r.binary = n ∧ r.latest = latestField env l bd := by
  cases hin : env.installed.contains n with
  | false => rw [checkRow_absent l hin] at h; cases h; exact ⟨rfl, rfl⟩
  | true =>
    cases hr : env.run n bd.version_arg with
    | none => rw [checkRow_panic l hin hr] at h; cases h
    | some out => rw [checkRow_present l hin hr] at h; cases h; exact ⟨rfl, rfl⟩

theorem check_latest_release_failure {resp : RemoteResp}
    (h : ∀ t, resp ≠ RemoteResp.payload (some t)) :
    check_latest_release resp = "Error" := by
  cases resp with
  | sendErr => rfl
  | httpFail => rfl
  | jsonErr => rfl
  | payload tag =>
    cases tag with
    | none => rfl
    | some t => exact absurd rfl (h t)

theorem extract_error_str : extract "Error" = none := by decide

theorem binary_check_some_of_dir {env : Env} {data : List (String × BinData)}
    {l : Bool} {rows : List Row} {invs : List (String × String)}
    (hdir : env.binDirOk = true)
    (h : binary_check env data l = some (rows, invs)) :
    binary_check_go env l data = some (rows, invs) := by
  unfold binary_check at h
  rw [hdir] at h
  simpa using h

/-! ### C5 -/

/-- C5: version extraction is total and deterministic; on the concrete
prefixed tag v1.4.0 it yields 1.4.0; it returns the sentinel `none`
exactly when no d+.d+.d+ token occurs anywhere in the input; and any
returned string is such a token occurring at the leftmost position at
which one occurs. -/
theorem c5_extract_first_match :
    extract "v1.4.0" = some "1.4.0"
    ∧ (∀ t : String, extract t = none ↔ ∀ i, ¬ MatchAt t.data i)
    ∧ (∀ t s : String, extract t = some s →
        VerPat s.data ∧ ∃ i, OccursAt t.data s.data i ∧
          ∀ j, j < i → ¬ MatchAt t.data j) :=
  ⟨by decide, fun _ => extract_eq_none_iff, fun _ _ h => extract_eq_some h⟩

/-- Witness for C5: the leftmost-match consequence evaluated at the
concrete input v1.4.0 with output 1.4.0. -/
theorem c5_extract_first_match_witness :
    VerPat ("1.4.0" : String).data
    ∧ ∃ i, OccursAt ("v1.4.0" : String).data ("1.4.0" : String).data i
        ∧ ∀ j, j < i → ¬ MatchAt ("v1.4.0" : String).data j :=
  c5_extract_first_match.2.2 "v1.4.0" "1.4.0" c5_extract_first_match.1

/-! ### C10 -/

/-- C10: extraction is idempotent: on a string that is already a
normalized MAJOR.MINOR.PATCH token, extraction returns that very string. -/
theorem c10_extract_idempotent (s : String) (h : VerPat s.data) :
    extract s = some s :=
  extract_verPat h

/-- Witness for C10 at the concrete normalized version 2.10.4. -/
theorem c10_extract_idempotent_witness : extract "2.10.4" = some "2.10.4" :=
  c10_extract_idempotent "2.10.4"
    ⟨['2'], ['1', '0'], ['4'], by decide, by decide, by decide, by decide,
      by unfold AllDigits; decide, by unfold AllDigits; decide,
      by unfold AllDigits; decide⟩

/-! ### C6 -/

/-- C6: when the remote lookup for an entry fails in any way (send error,
non-success HTTP status, JSON error, or missing tag field), that entry
row carries the Latest sentinel "-", and whether the run aborts is
independent of the remote oracle and of the latest flag: remote failures
never turn a completing reconciliation into a panic. -/
theorem c6_remote_failure_sentinel (env : Env)
    (data : List (String × BinData)) (rows : List Row)
    (invs : List (String × String)) (n : String) (bd : BinData)
    (hdir : env.binDirOk = true)
    (h : binary_check env data true = some (rows, invs))
    (hmem : (n, bd) ∈ data)
    (hfail : ∀ t, env.remote bd.repo ≠ RemoteResp.payload (some t)) :
    (∃ r ∈ rows, r.binary = n ∧ r.latest = some "-")
    ∧ ∀ (env2 : Env) (l2 : Bool), env2.binDirOk = env.binDirOk →
        env2.installed = env.installed → env2.run = env.run →
        ((binary_check env2 data l2).isSome = true ↔
          (binary_check env data true).isSome = true) := by
  have hgo := binary_check_some_of_dir hdir h
  constructor
  · obtain ⟨r, inv, hc, hr, _⟩ := binary_check_go_mem hgo hmem
    obtain ⟨hb, hl⟩ := checkRow_some_fields hc
    refine ⟨r, hr, hb, ?_⟩
    rw [hl]
    unfold latestField
    rw [check_latest_release_failure hfail, extract_error_str]
    rfl
  · intro env2 l2 hd2 hi2 hr2
    unfold binary_check
    rw [hd2, hdir]
    simp only [if_true]
    rw [binary_check_go_isSome, binary_check_go_isSome]
    constructor
    · intro hall p hp
      rw [checkRow_isSome]
      have := hall p hp
      rw [checkRow_isSome, hi2, hr2] at this
      exact this
    · intro hall p hp
      rw [checkRow_isSome, hi2, hr2]
      have := hall p hp
      rw [checkRow_isSome] at this
      exact this

def c6Env : Env :=
  { binDirOk := true, installed := [],
    run := fun _ _ => none,
    remote := fun _ => RemoteResp.httpFail,
    install := fun _ _ => Except.error "" }

def c6Data : List (String × BinData) :=
  [("aaa", { repo := "owner/aaa", exe := "aaa", version_arg := "--version" })]

/-- Witness for C6: a one-entry manifest whose remote lookup fails with a
non-success HTTP status; the row renders Latest as "-". -/
theorem c6_remote_failure_sentinel_witness :
    ∃ r ∈ [{ binary := "aaa", status := "Not Found", version := "-",
             latest := some "-" : Row }], r.binary = "aaa" ∧ r.latest = some "-" :=
  (c6_remote_failure_sentinel c6Env c6Data
    [{ binary := "aaa", status := "Not Found", version := "-", latest := some "-" }]
    [] "aaa" { repo := "owner/aaa", exe := "aaa", version_arg := "--version" }
    rfl (by decide) (by decide)
    (fun t h => RemoteResp.noConfusion h)).1

/-! ### C9 -/

/-- C9: an entry whose name is absent from the installed set always gets a
record with status Not Found and the version sentinel "-", whatever the
latest flag is, and no subprocess is invoked for it. -/
theorem c9_absent_entry_record (env : Env) (data : List (String × BinData))
    (latest : Bool) (rows : List Row) (invs : List (String × String))
    (n : String) (bd : BinData)
    (hdir : env.binDirOk = true)
    (h : binary_check env data latest = some (rows, invs))
    (hmem : (n, bd) ∈ data)
    (habs : env.installed.contains n = false) :
    (∃ r ∈ rows, r.binary = n ∧ r.status = "Not Found" ∧ r.version = "-")
    ∧ ∀ arg, (n, arg) ∉ invs := by
  have hgo := binary_check_some_of_dir hdir h
  constructor
  · obtain ⟨r, inv, hc, hr, _⟩ := binary_check_go_mem hgo hmem
    rw [checkRow_absent latest habs] at hc
    cases hc
    exact ⟨_, hr, rfl, rfl, rfl⟩
  · intro arg hin
    have := binary_check_go_inv_installed hgo (n, arg) hin
    rw [habs] at this
    cases this

def c9Env : Env :=
  { binDirOk := true, installed := ["other"],
    run := fun _ _ => some { success := true, stdout := "1.0.0" },
    remote := fun _ => RemoteResp.payload (some "v9.9.9"),
    install := fun _ _ => Except.ok () }

def c9Data : List (String × BinData) :=
  [("mytool", { repo := "o/mytool", exe := "mytool", version_arg := "-V" })]

/-- Witness for C9: with remote lookup enabled, an absent entry still
yields Not Found / "-" and no subprocess invocation. -/
theorem c9_absent_entry_record_witness :
    (∃ r ∈ [{ binary := "mytool", status := "Not Found", version := "-",
              latest := some "9.9.9" : Row }],
        r.binary = "mytool" ∧ r.status = "Not Found" ∧ r.version = "-")
    ∧ ∀ arg, ("mytool", arg) ∉ ([] : List (String × String)) :=
  c9_absent_entry_record c9Env c9Data true
    [{ binary := "mytool", status := "Not Found", version := "-",
       latest := some "9.9.9" }] [] "mytool"
    { repo := "o/mytool", exe := "mytool", version_arg := "-V" }
    rfl (by decide) (by decide) (by decide)

/-! ### C2 -/

def c2Env : Env :=
  { binDirOk := true, installed := ["beta"],
    run := fun _ _ => some { success := true, stdout := "beta 1.0.0" },
    remote := fun _ => RemoteResp.sendErr,
    install := fun _ _ => Except.error "" }

def c2Data : List (String × BinData) :=
  [("alpha", { repo := "o/alpha", exe := "beta", version_arg := "--version" })]

/-- Counterexample to C2: the single entry has executableName (exe field)
"beta", which IS present in the installed set, yet the probe reports the
entry Not Found, because the source tests membership of the entry NAME
"alpha", not of the exe field. -/
theorem c2_counterexample :
    (c2Data.map (fun p => p.2.exe)) = ["beta"]
    ∧ "beta" ∈ c2Env.installed
    ∧ binary_check c2Env c2Data false =
        some ([{ binary := "alpha", status := "Not Found", version := "-",
                 latest := none }], []) :=
  ⟨by decide, by decide, by decide⟩

/-- C2 amended: the local probe reports Not Found exactly when the entry
NAME (the manifest key, not the exe field) is absent from the installed
set; when the name is present, the command invoked is the name itself,
with the entry versionProbeArg as argument. -/
theorem c2_amended_name_based_probe (env : Env)
    (data : List (String × BinData)) (latest : Bool) (rows : List Row)
    (invs : List (String × String)) (n : String) (bd : BinData)
    (hdir : env.binDirOk = true)
    (h : binary_check env data latest = some (rows, invs))
    (hmem : (n, bd) ∈ data) :
    ∃ r ∈ rows, r.binary = n
      ∧ (r.status = "Not Found" ↔ env.installed.contains n = false)
      ∧ (env.installed.contains n = true → (n, bd.version_arg) ∈ invs) := by
  have hgo := binary_check_some_of_dir hdir h
  obtain ⟨r, inv, hc, hr, hinv⟩ := binary_check_go_mem hgo hmem
  cases hin : env.installed.contains n with
  | false =>
    rw [checkRow_absent latest hin] at hc
    cases hc
    exact ⟨_, hr, rfl, by simp, fun hcontra => by cases hcontra⟩
  | true =>
    cases hrun : env.run n bd.version_arg with
    | none => rw [checkRow_panic latest hin hrun] at hc; cases hc
    | some out =>
      rw [checkRow_present latest hin hrun] at hc
      cases hc
      refine ⟨_, hr, rfl, by simp, fun _ => ?_⟩
      exact hinv (n, bd.version_arg) (List.mem_singleton.mpr rfl)

def c2wEnv : Env :=
  { binDirOk := true, installed := ["alpha"],
    run := fun _ _ => some { success := true, stdout := "alpha 3.2.1" },
    remote := fun _ => RemoteResp.sendErr,
    install := fun _ _ => Except.error "" }

/-- Witness for C2 amended: a present entry name is reported via a row
named after it, with the probe invocation recorded. -/
theorem c2_amended_name_based_probe_witness :
    ∃ r ∈ [{ binary := "alpha", status := "Found", version := "3.2.1",
             latest := none : Row }], r.binary = "alpha"
      ∧ (r.status = "Not Found" ↔ c2wEnv.installed.contains "alpha" = false)
      ∧ (c2wEnv.installed.contains "alpha" = true →
          ("alpha", "--version") ∈ [("alpha", "--version")]) :=
  c2_amended_name_based_probe c2wEnv
    [("alpha", { repo := "o/alpha", exe := "beta", version_arg := "--version" })]
    false
    [{ binary := "alpha", status := "Found", version := "3.2.1", latest := none }]
    [("alpha", "--version")] "alpha"
    { repo := "o/alpha", exe := "beta", version_arg := "--version" }
    rfl (by decide) (by decide)

/-! ### C1 -/

def c1Env : Env :=
  { binDirOk := true, installed := ["alpha"],
    run := fun _ _ => none,
    remote := fun _ => RemoteResp.sendErr,
    install := fun _ _ => Except.error "" }

def c1Data : List (String × BinData) :=
  [("alpha", { repo := "o/alpha", exe := "alpha", version_arg := "--version" })]

/-- Counterexample to C1: the directory check succeeds and the manifest
has exactly one (unique) entry, yet binary_check emits zero status
records: the probe subprocess fails to spawn and the expect call panics
the whole run instead of emitting a row. -/
theorem c1_counterexample :
    c1Env.binDirOk = true ∧ c1Data.length = 1
    ∧ binary_check c1Env c1Data false = none :=
  ⟨rfl, rfl, by decide⟩

/-- C1 amended: when the directory check succeeds AND the probe
subprocess of every installed entry spawns successfully, binary_check
returns exactly one record per manifest entry, in manifest order, whose
names are exactly the entry names (distinct when the names are); rows
are still emitted when a probe has an exit error or unparsable output,
but a spawn failure panics the run and yields no report at all. -/
theorem c1_amended_report_complete (env : Env)
    (data : List (String × BinData)) (latest : Bool)
    (hdir : env.binDirOk = true)
    (hnd : (data.map Prod.fst).Nodup)
    (hspawn : ∀ p ∈ data, env.installed.contains p.1 = true →
      (env.run p.1 p.2.version_arg).isSome = true) :
    ∃ rows invs, binary_check env data latest = some (rows, invs)
      ∧ rows.length = data.length
      ∧ rows.map Row.binary = data.map Prod.fst
      ∧ (rows.map Row.binary).Nodup := by
  have hsome : (binary_check_go env latest data).isSome = true := by
    rw [binary_check_go_isSome]
    intro p hp
    rw [checkRow_isSome]
    exact hspawn p hp
  cases hg : binary_check_go env latest data with
  | none => rw [hg] at hsome; cases hsome
  | some ri =>
    obtain ⟨rows, invs⟩ := ri
    have hnames := binary_check_go_names hg
    refine ⟨rows, invs, ?_, ?_, hnames, ?_⟩
    · unfold binary_check
      rw [hdir]
      simpa using hg
    · have := congrArg List.length hnames
      simpa using this
    · rw [hnames]
      exact hnd

def c1wEnv : Env :=
  { binDirOk := true, installed := ["beta"],
    run := fun _ _ => some { success := true, stdout := "no version here" },
    remote := fun _ => RemoteResp.sendErr,
    install := fun _ _ => Except.error "" }

def c1wData : List (String × BinData) :=
  [("alpha", { repo := "o/alpha", exe := "alpha", version_arg := "-v" }),
   ("beta", { repo := "o/beta", exe := "beta", version_arg := "-v" })]

/-- Witness for C1 amended: two entries, one absent and one present whose
probe output has no parsable version; both still get rows, with names
matching the manifest. -/
theorem c1_amended_report_complete_witness :
    ∃ rows invs, binary_check c1wEnv c1wData false = some (rows, invs)
      ∧ rows.length = c1wData.length
      ∧ rows.map Row.binary = c1wData.map Prod.fst
      ∧ (rows.map Row.binary).Nodup :=
  c1_amended_report_complete c1wEnv c1wData false rfl (by decide)
    (fun p _ _ => rfl)

/-! ### C3 -/

def c3aEnv : Env :=
  { binDirOk := true, installed := ["alpha"],
    run := fun _ _ => none,
    remote := fun _ => RemoteResp.sendErr,
    install := fun _ _ => Except.error "" }

def c3bEnv : Env :=
  { binDirOk := true, installed := ["alpha"],
    run := fun _ _ => some { success := false, stdout := "alpha 7.8.9" },
    remote := fun _ => RemoteResp.sendErr,
    install := fun _ _ => Except.error "" }

def c3Data : List (String × BinData) :=
  [("alpha", { repo := "o/alpha", exe := "alpha", version_arg := "-v" })]

/-- Counterexample to C3: (a) an invocation failure (the child cannot be
spawned) panics the whole reconciliation instead of yielding a Found/"-"
row; (b) an exit error does NOT yield the "-" sentinel: the exit status
is ignored, and a version found on stdout is reported as-is. -/
theorem c3_counterexample :
    binary_check c3aEnv c3Data false = none
    ∧ c3bEnv.run "alpha" "-v" =
        some { success := false, stdout := "alpha 7.8.9" }
    ∧ binary_check c3bEnv c3Data false =
        some ([{ binary := "alpha", status := "Found", version := "7.8.9",
                 latest := none }], [("alpha", "-v")]) :=
  ⟨by decide, rfl, by decide⟩

/-- C3 amended: provided the probe subprocess of every installed entry
can be spawned, reconciliation completes (no probe outcome aborts it),
and for a present entry whose captured stdout contains no version token
the row is Found with the "-" sentinel — the exit status being ignored
entirely; a spawn failure, by contrast, panics the whole run. -/
theorem c3_amended_probe_failure (env : Env)
    (data : List (String × BinData)) (latest : Bool)
    (hdir : env.binDirOk = true)
    (hspawn : ∀ p ∈ data, env.installed.contains p.1 = true →
      (env.run p.1 p.2.version_arg).isSome = true) :
    (binary_check env data latest).isSome = true
    ∧ ∀ (n : String) (bd : BinData) (out : ProcOutput),
        env.installed.contains n = true →
        env.run n bd.version_arg = some out →
        extract out.stdout = none →
        ∃ r inv, checkRow env latest n bd = some (r, inv)
          ∧ r.status = "Found" ∧ r.version = "-" := by
  constructor
  · unfold binary_check
    rw [hdir]
    simp only [if_true]
    rw [binary_check_go_isSome]
    intro p hp
    rw [checkRow_isSome]
    exact hspawn p hp
  · intro n bd out hin hrun hmiss
    refine ⟨_, _, checkRow_present latest hin hrun, rfl, ?_⟩
    simp [hmiss]

def c3wEnv : Env :=
  { binDirOk := true, installed := ["alpha"],
    run := fun _ _ => some { success := false, stdout := "garbage" },
    remote := fun _ => RemoteResp.sendErr,
    install := fun _ _ => Except.error "" }

/-- Witness for C3 amended: a present entry whose probe exits with an
error and prints no version still gets a Found/"-" row, and the run
completes. -/
theorem c3_amended_probe_failure_witness :
    (binary_check c3wEnv c3Data false).isSome = true
    ∧ ∃ r inv, checkRow c3wEnv false "alpha"
        { repo := "o/alpha", exe := "alpha", version_arg := "-v" } =
          some (r, inv) ∧ r.status = "Found" ∧ r.version = "-" :=
  ⟨(c3_amended_probe_failure c3wEnv c3Data false rfl (fun p _ _ => rfl)).1,
   (c3_amended_probe_failure c3wEnv c3Data false rfl (fun p _ _ => rfl)).2
     "alpha" { repo := "o/alpha", exe := "alpha", version_arg := "-v" }
     { success := false, stdout := "garbage" } rfl rfl (by decide)⟩

/-! ### C4 -/

def c4Env : Env :=
  { binDirOk := false, installed := [],
    run := fun _ _ => none,
    remote := fun _ => RemoteResp.sendErr,
    install := fun _ _ => Except.ok () }

def c4Data : List (String × BinData) :=
  [("alpha", { repo := "o/alpha", exe := "alpha", version_arg := "-v" })]

/-- Counterexample to C4: with the target directory check failing, both
the status-check path and the fetch-missing path exit with code 0 (the
claim demands a non-zero exit on every command path). -/
theorem c4_counterexample :
    c4Env.binDirOk = false
    ∧ check_command_exit c4Env c4Data true = 0
    ∧ check_command_exit c4Env c4Data false = 0
    ∧ get_missing_command_exit c4Env c4Data = 0 :=
  ⟨rfl, rfl, rfl, rfl⟩

/-- C4 amended: when the target directory is unset or uncreatable, no
probing happens, but only the single-binary get path aborts with a
non-zero exit; the status check prints an empty report and exits 0, and
fetch-missing performs no installs and exits 0. -/
theorem c4_amended_dir_failure (env : Env)
    (data : List (String × BinData)) (latest : Bool) (n : String)
    (h : env.binDirOk = false) :
    binary_check env data latest = some ([], [])
    ∧ check_command_exit env data latest = 0
    ∧ binary_get_missing env data = (Except.ok "", [])
    ∧ get_missing_command_exit env data = 0
    ∧ get_command_exit env data n = 1 := by
  refine ⟨?_, ?_, ?_, ?_, ?_⟩
  · simp [binary_check, h]
  · simp [check_command_exit, binary_check, h]
  · simp [binary_get_missing, h]
  · simp [get_missing_command_exit, binary_get_missing, h]
  · simp [get_command_exit, binary_get, h]

/-- Witness for C4 amended at the concrete failing environment. -/
theorem c4_amended_dir_failure_witness :
    binary_check c4Env c4Data true = some ([], [])
    ∧ check_command_exit c4Env c4Data true = 0
    ∧ binary_get_missing c4Env c4Data = (Except.ok "", [])
    ∧ get_missing_command_exit c4Env c4Data = 0
    ∧ get_command_exit c4Env c4Data "alpha" = 1 :=
  c4_amended_dir_failure c4Env c4Data true "alpha" rfl

/-! ### C7 -/

/-- C7: with the directory available and all needed installs succeeding,
fetch-missing invokes the installer exactly on the absent entries — each
absent name exactly once, never a present one — and returns the no-op
summary with zero invocations when every entry is installed. -/
theorem c7_fetch_missing_exact (env : Env) (data : List (String × BinData))
    (hdir : env.binDirOk = true)
    (hnd : (data.map Prod.fst).Nodup)
    (hok : ∀ n ∈ notFound env data, ∀ bd, lookupName data n = some bd →
      env.install n bd = Except.ok ()) :
    (binary_get_missing env data).2 = notFound env data
    ∧ (∀ n, n ∈ (binary_get_missing env data).2 ↔
        n ∈ data.map Prod.fst ∧ env.installed.contains n = false)
    ∧ (binary_get_missing env data).2.Nodup
    ∧ ((∀ n ∈ data.map Prod.fst, env.installed.contains n = true) →
        binary_get_missing env data =
          (Except.ok "All binaries are already present.", [])) := by
  have hnfnd : (notFound env data).Nodup := List.Nodup.filter _ hnd
  have hsub : ∀ n ∈ notFound env data, n ∈ data.map Prod.fst :=
    fun n hn => (notFound_mem.mp hn).1
  have h2 : (binary_get_missing env data).2 = notFound env data := by
    by_cases he : (notFound env data).isEmpty = true
    · have hnil : notFound env data = [] := List.isEmpty_iff.mp he
      simp [binary_get_missing, hdir, he, hnil]
    · have hb : bgm_go env data (notFound env data) =
          (Except.ok "", notFound env data) :=
        bgm_go_all_ok hdir hsub hok
      simp [binary_get_missing, hdir, he, hb]
  refine ⟨h2, ?_, ?_, ?_⟩
  · intro n
    rw [h2]
    exact notFound_mem
  · rw [h2]
    exact hnfnd
  · intro hall
    have hnil : notFound env data = [] := by
      unfold notFound
      rw [List.filter_eq_nil_iff]
      intro n hn
      simpa using hall n hn
    simp [binary_get_missing, hdir, hnil]

def c7Env : Env :=
  { binDirOk := true, installed := ["bbb"],
    run := fun _ _ => none,
    remote := fun _ => RemoteResp.sendErr,
    install := fun _ _ => Except.ok () }

def c7Data : List (String × BinData) :=
  [("aaa", { repo := "o/aaa", exe := "aaa", version_arg := "-v" }),
   ("bbb", { repo := "o/bbb", exe := "bbb", version_arg := "-v" })]

/-- Witness for C7: the manifest has A absent and B present; the
installer is invoked exactly once, for A only. -/
theorem c7_fetch_missing_exact_witness :
    (binary_get_missing c7Env c7Data).2 = notFound c7Env c7Data
    ∧ notFound c7Env c7Data = ["aaa"]
    ∧ (binary_get_missing c7Env c7Data).2.Nodup :=
  ⟨(c7_fetch_missing_exact c7Env c7Data rfl (by decide)
      (fun _ _ _ _ => rfl)).1,
   by decide,
   (c7_fetch_missing_exact c7Env c7Data rfl (by decide)
      (fun _ _ _ _ => rfl)).2.2.1⟩

/-! ### C8 -/

/-- C8: when the installer fails on an absent entry, the error propagates
immediately: the installer was invoked on the preceding absent entries
and the failing one, and on no later entry. -/
theorem c8_abort_on_first_failure (env : Env)
    (data : List (String × BinData)) (l1 l2 : List String)
    (a e : String) (bd : BinData)
    (hdir : env.binDirOk = true)
    (hnf : notFound env data = l1 ++ a :: l2)
    (hok : ∀ n ∈ l1, ∀ bd0, lookupName data n = some bd0 →
      env.install n bd0 = Except.ok ())
    (hbd : lookupName data a = some bd)
    (hfail : env.install a bd = Except.error e) :
    binary_get_missing env data = (Except.error e, l1 ++ [a]) := by
  have hne : (notFound env data).isEmpty = false := by
    rw [hnf]
    cases l1 <;> rfl
  have hkeys1 : ∀ n ∈ l1, n ∈ data.map Prod.fst := by
    intro n hn
    have hmem : n ∈ notFound env data := by
      rw [hnf]
      exact List.mem_append_left _ hn
    exact (notFound_mem.mp hmem).1
  have hb := bgm_go_fail hdir hbd hfail l2 hkeys1 hok
  rw [← hnf] at hb
  simp [binary_get_missing, hdir, hne, hb]

def c8Env : Env :=
  { binDirOk := true, installed := [],
    run := fun _ _ => none,
    remote := fun _ => RemoteResp.sendErr,
    install := fun n _ =>
      if n = "bbb" then Except.error "boom" else Except.ok () }

def c8Data : List (String × BinData) :=
  [("aaa", { repo := "o/aaa", exe := "aaa", version_arg := "-v" }),
   ("bbb", { repo := "o/bbb", exe := "bbb", version_arg := "-v" }),
   ("ccc", { repo := "o/ccc", exe := "ccc", version_arg := "-v" })]

/-- Witness for C8: with three absent entries and the second install
failing, the run stops after the second: the third entry is never
attempted. -/
theorem c8_abort_on_first_failure_witness :
    binary_get_missing c8Env c8Data = (Except.error "boom", ["aaa", "bbb"]) :=
  c8_abort_on_first_failure c8Env c8Data ["aaa"] ["ccc"] "bbb" "boom"
    { repo := "o/bbb", exe := "bbb", version_arg := "-v" }
    rfl (by decide)
    (fun n hn bd0 _ => by
      rcases List.mem_singleton.mp hn with rfl
      rfl)
    (by decide) rfl

end Bina
